import Mathlib

/-!
# tcp-transmit: the relay engine (`service/service.go`) and its shell (`app.go`)

A shallow embedding of the relay state and of the functions of the two source
files, followed by the properties of the relay that are proved about it. The
logger set-up (`SetLogger`) and the context the shell saves (`startup`) are
left out: nothing reads them.

Conventions of the embedding.

* A `net.Conn` handle is a `Conn`: its pointer identity and its (immutable)
  remote address.  The registry `cmap.ConcurrentMap[*net.Conn, bool]` is the
  list of its keys, without order: every traversal of `Clients.Items()` visits
  the keys in an order chosen by the runtime, which is the `Order` argument.
* A buffered channel is a `Chan`: its capacity and its queued entries, oldest
  first.  A send on a full channel does not complete (`none`).
* `closeChan` is never sent on, so it is the Boolean "has been closed".
  Closing it twice panics, as in Go.
* Calls on objects outside the relay (closing or writing a connection, closing
  the listener, closing `closeChan`, logging) are appended to the ghost field
  `trace`, in program order.  The result of a write, which the code discards,
  is an oracle argument `wr`; it is recorded with the call and not used.
* Results of blocking calls (`Dial`, `Listen`, `Accept`, `Read`) are arguments.
* A byte slice is a list of byte values; `string(msg[:n])` keeps the bytes.
* `json.Marshal` returns the document it encodes, as a value; the rendering of
  that document as text is the library's.
* A panic is `Except.error` (or `LoopResult.panic`).
-/

namespace TcpRelay

/-! ## Data model -/

/-- Byte slice `msg[:n]`, and the Go string `string(msg[:n])` made of the same bytes. -/
abbrev Bytes := List Nat

/-- Connection handle `net.Conn` behind a `*net.Conn` key: pointer identity and remote address. -/
structure Conn where
  ptr : Nat
  remoteAddr : String
deriving DecidableEq, Repr

/-- Listening socket `net.Listener`. -/
structure Listener where
  ptr : Nat
deriving DecidableEq, Repr

/-- Relay message `ConnMsgT`. -/
structure ConnMsgT where
  IpAddr : String
  Msg : Bytes
deriving DecidableEq, Repr

/-- Buffered channel of relay messages: `make(chan ConnMsgT, cap)`. -/
structure Chan where
  cap : Nat
  buf : List ConnMsgT
deriving DecidableEq, Repr

/-- Calls the relay makes on objects it does not own, in program order. -/
inductive Event where
  | connClose (c : Conn)
  | listenerClose (l : Listener)
  | connWrite (c : Conn) (b : Bytes) (ok : Bool)
  | chanClose
  | log (msg : String)
deriving DecidableEq, Repr

/-- The relay `TcpTransmit`. `wg` is the wait-group counter, `closeChan` tells whether the
close-signal channel has been closed, `trace` is the ghost record of outside calls. -/
structure TcpTransmit where
  ConnRemote : Option Conn
  Listener : Option Listener
  Clients : List Conn
  ClientsBuf : Chan
  TargetBuf : Chan
  wg : Nat
  closeChan : Bool
  IsClose : Bool
  trace : List Event
deriving DecidableEq, Repr

/-- Order in which one traversal of `Clients.Items()` visits the keys. -/
structure Order where
  perm : List Conn → List Conn
  is_perm : ∀ l, (perm l).Perm l

/-- The traversal that visits the keys as listed. -/
def Order.asListed : Order := ⟨fun l => l, fun l => List.Perm.refl l⟩

/-- The traversal that visits the keys in reverse. -/
def Order.reversed : Order := ⟨fun l => l.reverse, fun l => List.reverse_perm l⟩

/-- Value of a field of a marshalled document. -/
inductive JsonValue where
  | null
  | str (s : String)
  | text (b : Bytes)
  | strArray (xs : List String)
deriving DecidableEq, Repr

/-- JSON object: its fields in the order of the struct. -/
abbrev JsonDoc := List (String × JsonValue)

/-- Go string handed to the shell: the empty string, or the text of a JSON document. -/
inductive Text where
  | empty
  | doc (d : JsonDoc)
deriving DecidableEq, Repr

/-- Go slice `[]string`; `none` is the nil slice. -/
abbrev StringSlice := Option (List String)

/-- Builtin `append(s, x)`. -/
def StringSlice.append : StringSlice → String → StringSlice
  | none, x => some [x]
  | some xs, x => some (xs ++ [x])

/-- `json.Marshal` of a `ConnMsgT`: two string fields, never an error. -/
def jsonMarshalConnMsgT (m : ConnMsgT) : Except String JsonDoc :=
  .ok [("ipAddr", .str m.IpAddr), ("msg", .text m.Msg)]

/-- `json.Marshal` of the local struct `result`: a nil slice is encoded as `null`. -/
def jsonMarshalResult (clientsList : StringSlice) : Except String JsonDoc :=
  match clientsList with
  | none => .ok [("clientsList", .null)]
  | some xs => .ok [("clientsList", .strArray xs)]

/-! ## Primitives -/

/-- Channel send `ch <- v`: completes only when the buffer has room. -/
def Chan.send (ch : Chan) (v : ConnMsgT) : Option Chan :=
  if ch.buf.length < ch.cap then some { ch with buf := ch.buf ++ [v] } else none

/-- Record one outside call. -/
def TcpTransmit.emit (t : TcpTransmit) (e : Event) : TcpTransmit :=
  { t with trace := t.trace ++ [e] }

/-- Snapshot traversal `for k := range t.Clients.Items()`. -/
def TcpTransmit.Items (t : TcpTransmit) (o : Order) : List Conn :=
  o.perm t.Clients

/-- Registry insert `Clients.Set(k, true)`. -/
def cmapSet (m : List Conn) (k : Conn) : List Conn :=
  if k ∈ m then m else m ++ [k]

/-- Registry removal `Clients.Remove(k)`. -/
def cmapRemove (m : List Conn) (k : Conn) : List Conn :=
  m.filter (fun x => x ≠ k)

/-- Wait-group `wg.Add(1)`. -/
def TcpTransmit.wgAdd (t : TcpTransmit) : TcpTransmit :=
  { t with wg := t.wg + 1 }

/-- Wait-group `wg.Done()`: panics when the counter would go negative. -/
def TcpTransmit.wgDone (t : TcpTransmit) : Except String TcpTransmit :=
  if t.wg = 0 then .error "sync: negative WaitGroup counter"
  else .ok { t with wg := t.wg - 1 }

/-- Builtin `close(t.closeChan)`: panics on a closed channel. -/
def TcpTransmit.closeSignal (t : TcpTransmit) : Except String TcpTransmit :=
  if t.closeChan then .error "close of closed channel"
  else .ok { (t.emit .chanClose) with closeChan := true }

/-! ## service/service.go -/

/-- Constructor `NewTcpTransmit`. -/
def NewTcpTransmit : TcpTransmit :=
  { ConnRemote := none
    Listener := none
    Clients := []
    ClientsBuf := { cap := 2048, buf := [] }
    TargetBuf := { cap := 2048, buf := [] }
    wg := 0
    closeChan := false
    IsClose := false
    trace := [] }

/-- Method `Close` (the mutex makes it one step). -/
def TcpTransmit.Close (o : Order) (t : TcpTransmit) : Except String TcpTransmit :=
  if t.IsClose then .ok t
  else
    let t1 := match t.ConnRemote with
      | some c => t.emit (.connClose c)
      | none => t
    let t2 := match t1.Listener with
      | some l => t1.emit (.listenerClose l)
      | none => t1
    let t3 := (t2.Items o).foldl (fun acc k => acc.emit (.connClose k)) t2
    let t4 := { t3 with IsClose := true }
    t4.closeSignal

/-- Method `Stop`. -/
def TcpTransmit.Stop (o : Order) (t : TcpTransmit) : Except String TcpTransmit :=
  t.Close o

/-- Method `Start`, up to its return: `dial` and `listen` are the results of `net.Dial` and
`net.Listen`. The three goroutines it launches are the steps `TargetMsgProc_*`,
`acceptLoop_*` and `WaitClose`. The result is the returned error (`none` is nil). -/
def TcpTransmit.Start (t : TcpTransmit) (dial : Except String Conn)
    (listen : Except String TcpRelay.Listener) : Option String × TcpTransmit :=
  match dial with
  | .error err => (some err, t)
  | .ok conn =>
    let t1 := { t with ConnRemote := some conn }
    match listen with
    | .error err => (some err, t1)
    | .ok listener =>
      let t2 := { t1 with Listener := some listener }
      (none, t2.emit (.log "TcpTransmit start success"))

/-- Outcome of one pass through the body of a relay loop. -/
inductive LoopResult where
  | next (t : TcpTransmit)
  | blocked (t : TcpTransmit) (pending : ConnMsgT)
  | returned (t : TcpTransmit)
  | panic (msg : String)
deriving DecidableEq, Repr

/-- Entry of `TargetMsgProc`: `t.wg.Add(1)`. -/
def TcpTransmit.TargetMsgProc_enter (t : TcpTransmit) : TcpTransmit :=
  t.wgAdd

/-- One pass of the loop of `TargetMsgProc`; `rd` is the result of `ConnRemote.Read`,
`wr` tells which client writes succeed. On a read error the deferred function runs. -/
def TcpTransmit.TargetMsgProc_body (o : Order) (wr : Conn → Bool) (t : TcpTransmit)
    (rd : Except String Bytes) : LoopResult :=
  match t.ConnRemote with
  | none => .panic "invalid memory address or nil pointer dereference"
  | some remote =>
    match rd with
    | .error _ =>
      let t1 := t.emit (.log "TargetMsg read err")
      match t1.wgDone with
      | .error e => .panic e
      | .ok t2 =>
        match t2.Close o with
        | .error e => .panic e
        | .ok t3 => .returned t3
    | .ok b =>
      let t1 := (t.Items o).foldl (fun acc k => acc.emit (.connWrite k b (wr k))) t
      let m : ConnMsgT := { IpAddr := remote.remoteAddr, Msg := b }
      match t1.TargetBuf.send m with
      | some ch => .next { t1 with TargetBuf := ch }
      | none => .blocked t1 m

/-- Completion of a send of `TargetMsgProc` that was parked on a full buffer. -/
def TcpTransmit.TargetMsgProc_send (t : TcpTransmit) (m : ConnMsgT) : Option TcpTransmit :=
  match t.TargetBuf.send m with
  | some ch => some { t with TargetBuf := ch }
  | none => none

/-- Entry of the accept goroutine of `Start`: `t.wg.Add(1)`. -/
def TcpTransmit.acceptLoop_enter (t : TcpTransmit) : TcpTransmit :=
  t.wgAdd

/-- One pass of the accept loop of `Start`; `r` is the result of `listener.Accept`. -/
def TcpTransmit.acceptLoop_body (o : Order) (t : TcpTransmit) (r : Except String Conn) :
    LoopResult :=
  match r with
  | .error _ =>
    let t1 := t.emit (.log "accept err")
    match t1.wgDone with
    | .error e => .panic e
    | .ok t2 =>
      match t2.Close o with
      | .error e => .panic e
      | .ok t3 => .returned t3
  | .ok client => .next { t with Clients := cmapSet t.Clients client }

/-- Entry of `ClientMsgProc`: `t.wg.Add(1)`. -/
def TcpTransmit.ClientMsgProc_enter (t : TcpTransmit) : TcpTransmit :=
  t.wgAdd

/-- One pass of the loop of `ClientMsgProc` for the client `cli`; `rd` is the result of
`conn.Read`, `wr` tells whether the write to the target succeeds. -/
def TcpTransmit.ClientMsgProc_body (wr : Conn → Bool) (t : TcpTransmit) (cli : Conn)
    (rd : Except String Bytes) : LoopResult :=
  match rd with
  | .error _ =>
    let t1 := t.emit (.log "TargetMsg read err")
    match t1.wgDone with
    | .error e => .panic e
    | .ok t2 =>
      let t3 := { t2 with Clients := cmapRemove t2.Clients cli }
      .returned (t3.emit (.connClose cli))
  | .ok b =>
    match t.ConnRemote with
    | none => .panic "invalid memory address or nil pointer dereference"
    | some remote =>
      let t1 := t.emit (.connWrite remote b (wr remote))
      let m : ConnMsgT := { IpAddr := cli.remoteAddr, Msg := b }
      match t1.ClientsBuf.send m with
      | some ch => .next { t1 with ClientsBuf := ch }
      | none => .blocked t1 m

/-- Completion of a send of `ClientMsgProc` that was parked on a full buffer. -/
def TcpTransmit.ClientMsgProc_send (t : TcpTransmit) (m : ConnMsgT) : Option TcpTransmit :=
  match t.ClientsBuf.send m with
  | some ch => some { t with ClientsBuf := ch }
  | none => none

/-- Method `ReadRemoteChanMsg`. The `select` takes the `default` branch only when no other
case is ready; when both the buffer and the closed `closeChan` are ready the runtime chooses,
and `pickData` is that choice. -/
def TcpTransmit.ReadRemoteChanMsg (t : TcpTransmit) (pickData : Bool) :
    Except String JsonDoc × TcpTransmit :=
  match t.TargetBuf.buf, t.closeChan with
  | msg :: rest, false =>
    (jsonMarshalConnMsgT msg, { t with TargetBuf := { t.TargetBuf with buf := rest } })
  | msg :: rest, true =>
    if pickData then
      (jsonMarshalConnMsgT msg, { t with TargetBuf := { t.TargetBuf with buf := rest } })
    else (.error "remote msg chan close", t)
  | [], true => (.error "remote msg chan close", t)
  | [], false => (.error "empty", t)

/-- Method `ReadClientChanMsg`; `pickData` as in `ReadRemoteChanMsg`. -/
def TcpTransmit.ReadClientChanMsg (t : TcpTransmit) (pickData : Bool) :
    Except String JsonDoc × TcpTransmit :=
  match t.ClientsBuf.buf, t.closeChan with
  | msg :: rest, false =>
    (jsonMarshalConnMsgT msg, { t with ClientsBuf := { t.ClientsBuf with buf := rest } })
  | msg :: rest, true =>
    if pickData then
      (jsonMarshalConnMsgT msg, { t with ClientsBuf := { t.ClientsBuf with buf := rest } })
    else (.error "clients msg chan close", t)
  | [], true => (.error "clients msg chan close", t)
  | [], false => (.error "empty", t)

/-- Method `WaitClose`: returns (`some`) once the close-signal has fired and the wait-group
counter is zero; until then it is parked (`none`). -/
def TcpTransmit.WaitClose (t : TcpTransmit) : Option TcpTransmit :=
  if t.closeChan ∧ t.wg = 0 then some (t.emit (.log "TcpTransmit Close success")) else none

/-- The loop of `GetClientsList`: the slice `resultData.ClientsList` after the traversal. -/
def TcpTransmit.collectClients (o : Order) (t : TcpTransmit) : StringSlice :=
  (t.Items o).foldl (fun acc k => acc.append k.remoteAddr) none

/-- Method `GetClientsList`: the marshalling error is dropped and `string(res)` returned. -/
def TcpTransmit.GetClientsList (o : Order) (t : TcpTransmit) : Text :=
  match jsonMarshalResult (t.collectClients o) with
  | .ok res => .doc res
  | .error _ => .empty

/-! ## app.go -/

/-- The shell `App`: `t` is the relay the pointer `a.t` refers to (`none` is nil). -/
structure App where
  t : Option TcpTransmit
deriving DecidableEq, Repr

/-- Constructor `NewApp`. -/
def NewApp : App := { t := none }

/-- Method `AppStart`: the new relay is stored before `Start` runs and stays stored
when `Start` fails. -/
def App.AppStart (_a : App) (dial : Except String Conn) (listen : Except String Listener) :
    String × App :=
  let t := NewTcpTransmit
  match t.Start dial listen with
  | (some err, t1) => (err, { t := some t1 })
  | (none, t1) => ("success", { t := some t1 })

/-- Method `AppStop`. -/
def App.AppStop (o : Order) (a : App) : Except String App :=
  match a.t with
  | some t =>
    match t.Stop o with
    | .ok _ => .ok { t := none }
    | .error e => .error e
  | none => .ok a

/-- Method `shutdown`. -/
def App.shutdown (o : Order) (a : App) : Except String App :=
  a.AppStop o

/-- Method `ReadRemoteMsg`. -/
def App.ReadRemoteMsg (a : App) (pickData : Bool) : Text × App :=
  match a.t with
  | some t =>
    match t.ReadRemoteChanMsg pickData with
    | (.ok msg, t1) => (.doc msg, { t := some t1 })
    | (.error _, t1) => (.empty, { t := some t1 })
  | none => (.empty, a)

/-- Method `ReadClientsMsg`. -/
def App.ReadClientsMsg (a : App) (pickData : Bool) : Text × App :=
  match a.t with
  | some t =>
    match t.ReadClientChanMsg pickData with
    | (.ok msg, t1) => (.doc msg, { t := some t1 })
    | (.error _, t1) => (.empty, { t := some t1 })
  | none => (.empty, a)

/-- Method `CheckAppStop`. -/
def App.CheckAppStop (a : App) : Bool :=
  match a.t with
  | some t => t.IsClose
  | none => true

/-- Method `GetClientsList` of the shell. -/
def App.GetClientsList (o : Order) (a : App) : Text :=
  match a.t with
  | some t => t.GetClientsList o
  | none => .empty

/-! ## Runs of the relay

Every function above is one step. A run is any sequence of steps from any of the
goroutines, in any interleaving; which goroutines exist is not tracked, so the runs
below include every run of the program. A step that panics, or that is parked before it
has done anything, is not taken. A loop pass that is parked on its send has made its
writes: it is taken up to the send, and the send completes later as a step of its own
(`targetSend`, `clientSend`). -/

/-- One step of one goroutine, with the results the environment supplies. -/
inductive Action where
  | start (dial : Except String Conn) (listen : Except String Listener)
  | stop (o : Order)
  | close (o : Order)
  | targetEnter
  | targetBody (o : Order) (wr : Conn → Bool) (rd : Except String Bytes)
  | targetSend (m : ConnMsgT)
  | acceptEnter
  | acceptBody (o : Order) (r : Except String Conn)
  | clientEnter
  | clientBody (wr : Conn → Bool) (cli : Conn) (rd : Except String Bytes)
  | clientSend (m : ConnMsgT)
  | readRemote (pickData : Bool)
  | readClient (pickData : Bool)
  | waitClose

/-- State a loop pass leaves behind; a pass parked on its send has done everything before it. -/
def LoopResult.state : LoopResult → Option TcpTransmit
  | .next t => some t
  | .blocked t _ => some t
  | .returned t => some t
  | .panic _ => none

/-- State after one step, when the step is taken. -/
def step (a : Action) (t : TcpTransmit) : Option TcpTransmit :=
  match a with
  | .start dial listen => some (t.Start dial listen).2
  | .stop o => (t.Stop o).toOption
  | .close o => (t.Close o).toOption
  | .targetEnter => some t.TargetMsgProc_enter
  | .targetBody o wr rd => (t.TargetMsgProc_body o wr rd).state
  | .targetSend m => t.TargetMsgProc_send m
  | .acceptEnter => some t.acceptLoop_enter
  | .acceptBody o r => (t.acceptLoop_body o r).state
  | .clientEnter => some t.ClientMsgProc_enter
  | .clientBody wr cli rd => (t.ClientMsgProc_body wr cli rd).state
  | .clientSend m => t.ClientMsgProc_send m
  | .readRemote pickData => some (t.ReadRemoteChanMsg pickData).2
  | .readClient pickData => some (t.ReadClientChanMsg pickData).2
  | .waitClose => t.WaitClose

/-- State after a sequence of steps, when all of them are taken. -/
def run : List Action → TcpTransmit → Option TcpTransmit
  | [], t => some t
  | a :: rest, t => (step a t).bind (run rest)

/-- Events a first `Close` issues on `t`, in order. -/
def closeEvents (o : Order) (t : TcpTransmit) : List Event :=
  t.ConnRemote.toList.map Event.connClose ++ t.Listener.toList.map Event.listenerClose
    ++ (t.Items o).map Event.connClose ++ [Event.chanClose]

/-- The closed-flag and the close-signal agree, and the signal was fired once or never. -/
def Synced (t : TcpTransmit) : Prop :=
  t.closeChan = t.IsClose ∧ t.trace.count Event.chanClose = if t.IsClose then 1 else 0

/-! ## Sessions on one message buffer -/

/-- The two message buffers: target-origin (`TargetBuf`) and client-origin (`ClientsBuf`). -/
inductive Side where
  | remote
  | client
deriving DecidableEq, Repr

/-- The channel of a side. -/
def Side.chan : Side → TcpTransmit → Chan
  | .remote, t => t.TargetBuf
  | .client, t => t.ClientsBuf

/-- The send of the loop that feeds a side. -/
def Side.enqueue : Side → TcpTransmit → ConnMsgT → Option TcpTransmit
  | .remote, t, m => t.TargetMsgProc_send m
  | .client, t, m => t.ClientMsgProc_send m

/-- The polling method of a side. -/
def Side.poll : Side → TcpTransmit → Bool → Except String JsonDoc × TcpTransmit
  | .remote, t, pickData => t.ReadRemoteChanMsg pickData
  | .client, t, pickData => t.ReadClientChanMsg pickData

/-- The "channel closed" failure of the polling method of a side. -/
def Side.closedError : Side → String
  | .remote => "remote msg chan close"
  | .client => "clients msg chan close"

/-- An operation on a message buffer: a send by a relay loop, or a poll. -/
inductive BufOp where
  | enqueue (m : ConnMsgT)
  | poll (pickData : Bool)

/-- The entries a sequence of operations sends, in order. -/
def enqueued : List BufOp → List ConnMsgT
  | [] => []
  | .enqueue m :: ops => m :: enqueued ops
  | .poll _ :: ops => enqueued ops

/-- Runs a sequence of operations on one side, each to completion before the next: the
results of the polls, in order, and the final state; `none` when a send is parked. -/
def session (s : Side) : List BufOp → TcpTransmit →
    Option (List (Except String JsonDoc) × TcpTransmit)
  | [], t => some ([], t)
  | .enqueue m :: ops, t => (s.enqueue t m).bind (session s ops)
  | .poll pickData :: ops, t =>
    (session s ops (s.poll t pickData).2).map
      (fun r => ((s.poll t pickData).1 :: r.1, r.2))

/-- The step that polls a side. -/
def Side.pollAction : Side → Bool → Action
  | .remote, pickData => .readRemote pickData
  | .client, pickData => .readClient pickData

/-- One pass of the loop that feeds a side, after a read that returned `b`: the target loop
for the target-origin side, the loop of the client `cli` for the client-origin side. -/
def Side.pass : Side → Order → (Conn → Bool) → Conn → TcpTransmit → Bytes → LoopResult
  | .remote, o, wr, _, t, b => t.TargetMsgProc_body o wr (.ok b)
  | .client, _, wr, cli, t, b => t.ClientMsgProc_body wr cli (.ok b)

/-- Tells whether a step is a poll of the side. -/
def Side.isPoll : Side → Action → Bool
  | .remote, .readRemote _ => true
  | .client, .readClient _ => true
  | _, _ => false

/-- The relay with the queued entries of one side replaced. -/
def Side.withBuf : Side → TcpTransmit → List ConnMsgT → TcpTransmit
  | .remote, t, q => { t with TargetBuf := { t.TargetBuf with buf := q } }
  | .client, t, q => { t with ClientsBuf := { t.ClientsBuf with buf := q } }

/-- Tells a poll result that carries an entry from a failure. -/
def isData : Except String JsonDoc → Bool
  | .ok _ => true
  | .error _ => false

/-! ## A concrete relay, used to instantiate the theorems -/

/-- A target connection. -/
def sampleTarget : Conn := { ptr := 1, remoteAddr := "10.0.0.1:9000" }

/-- A first client. -/
def clientA : Conn := { ptr := 2, remoteAddr := "127.0.0.1:50001" }

/-- A second client. -/
def clientB : Conn := { ptr := 3, remoteAddr := "127.0.0.1:50002" }

/-- A successful start followed by the arrival of two clients. -/
def sampleRun : List Action :=
  [ .start (.ok sampleTarget) (.ok { ptr := 7 }), .targetEnter, .acceptEnter,
    .acceptBody Order.asListed (.ok clientA), .clientEnter,
    .acceptBody Order.asListed (.ok clientB), .clientEnter ]

/-- The relay after `sampleRun`. -/
def sampleRelay : TcpTransmit :=
  { ConnRemote := some sampleTarget
    Listener := some { ptr := 7 }
    Clients := [clientA, clientB]
    ClientsBuf := { cap := 2048, buf := [] }
    TargetBuf := { cap := 2048, buf := [] }
    wg := 4
    closeChan := false
    IsClose := false
    trace := [.log "TcpTransmit start success"] }

/-- The run `sampleRun` followed by the loss of the target. -/
def sampleClosingRun : List Action :=
  sampleRun ++ [.targetBody Order.asListed (fun _ => true) (.error "EOF")]

/-- A first entry, with payload "1". -/
def msgOne : ConnMsgT := { IpAddr := "10.0.0.1:9000", Msg := [49] }

/-- A second entry from the same origin, with payload "2". -/
def msgTwo : ConnMsgT := { IpAddr := "10.0.0.1:9000", Msg := [50] }

/-- The relay after `sampleClosingRun`. -/
def sampleClosed : TcpTransmit :=
  { sampleRelay with
    wg := 3
    closeChan := true
    IsClose := true
    trace := [.log "TcpTransmit start success", .log "TargetMsg read err",
      .connClose sampleTarget, .listenerClose { ptr := 7 }, .connClose clientA,
      .connClose clientB, .chanClose] }

/-- The closed relay `sampleClosed` with two entries still unread in each buffer. -/
def samplePending : TcpTransmit :=
  { sampleClosed with
    TargetBuf := { cap := 2048, buf := [msgOne, msgTwo] }
    ClientsBuf := { cap := 2048, buf := [msgTwo, msgOne] } }

/-- The target loop completes 2048 sends of `msgOne` and nothing is polled. -/
def fullRun : List Action := List.replicate 2048 (Action.targetSend msgOne)

/-- The relay after `fullRun`: the target-origin buffer holds 2048 entries. -/
def fullRelay : TcpTransmit :=
  { NewTcpTransmit with TargetBuf := { cap := 2048, buf := List.replicate 2048 msgOne } }

/-! ## Auxiliary lemmas -/

theorem foldl_emit (f : Conn → Event) (l : List Conn) (t : TcpTransmit) :
    l.foldl (fun acc k => acc.emit (f k)) t = { t with trace := t.trace ++ l.map f } := by
  induction l generalizing t with
  | nil => simp
  | cons k ks ih =>
    rw [List.foldl_cons, ih]
    simp [TcpTransmit.emit, List.append_assoc]

theorem Close_of_closed (o : Order) (t : TcpTransmit) (h : t.IsClose = true) :
    t.Close o = .ok t := by
  simp [TcpTransmit.Close, h]

theorem Close_of_open (o : Order) (t : TcpTransmit) (h : t.IsClose = false)
    (hc : t.closeChan = false) :
    t.Close o = .ok { t with IsClose := true, closeChan := true,
                              trace := t.trace ++ closeEvents o t } := by
  obtain ⟨cr, ls, cl, cb, tb, wg, cc, ic, tr⟩ := t
  simp only at h hc
  subst h hc
  cases cr <;> cases ls <;>
    simp only [TcpTransmit.Close, TcpTransmit.Items, foldl_emit] <;>
    simp [TcpTransmit.closeSignal, TcpTransmit.emit, TcpTransmit.Items, closeEvents,
      List.append_assoc]

theorem count_chanClose_map (f : Conn → Event) (hf : ∀ k, f k ≠ Event.chanClose)
    (l : List Conn) : (l.map f).count Event.chanClose = 0 := by
  rw [List.count_eq_zero]
  intro hmem
  obtain ⟨k, _, hk⟩ := List.mem_map.1 hmem
  exact hf k hk

theorem count_chanClose_closeEvents (o : Order) (t : TcpTransmit) :
    (closeEvents o t).count Event.chanClose = 1 := by
  have h1 : (t.ConnRemote.toList.map Event.connClose).count Event.chanClose = 0 := by
    cases t.ConnRemote <;> simp [List.count_cons]
  have h2 : (t.Listener.toList.map Event.listenerClose).count Event.chanClose = 0 := by
    cases t.Listener <;> simp [List.count_cons]
  have h3 : ((t.Items o).map Event.connClose).count Event.chanClose = 0 :=
    count_chanClose_map _ (fun _ h => by cases h) _
  simp [closeEvents, List.count_append, h1, h2, h3]

theorem Close_synced (o : Order) (t t1 : TcpTransmit) (hs : Synced t)
    (h : t.Close o = .ok t1) : Synced t1 ∧ t1.IsClose = true := by
  cases hic : t.IsClose with
  | true =>
    rw [Close_of_closed o t hic] at h
    cases h
    exact ⟨hs, hic⟩
  | false =>
    have hc : t.closeChan = false := by rw [hs.1, hic]
    rw [Close_of_open o t hic hc] at h
    cases h
    have hcount := hs.2
    rw [hic] at hcount
    simp only [Bool.false_eq_true, if_false] at hcount
    refine ⟨⟨rfl, ?_⟩, rfl⟩
    simp [List.count_append, hcount, count_chanClose_closeEvents]

theorem Close_total (o : Order) (t : TcpTransmit) (hs : t.closeChan = t.IsClose) :
    ∃ t1, t.Close o = .ok t1 := by
  cases hic : t.IsClose with
  | true => exact ⟨t, Close_of_closed o t hic⟩
  | false => exact ⟨_, Close_of_open o t hic (by rw [hs, hic])⟩

theorem Synced.congr {t t2 : TcpTransmit} (hs : Synced t) (h1 : t2.closeChan = t.closeChan)
    (h2 : t2.IsClose = t.IsClose)
    (h3 : t2.trace.count Event.chanClose = t.trace.count Event.chanClose) : Synced t2 := by
  unfold Synced at *
  rw [h1, h2, h3]
  exact hs

theorem wgDone_ok {t t2 : TcpTransmit} (h : t.wgDone = .ok t2) :
    0 < t.wg ∧ t2 = { t with wg := t.wg - 1 } := by
  unfold TcpTransmit.wgDone at h
  split at h
  · cases h
  · cases h
    exact ⟨by omega, rfl⟩

theorem exit_synced (o : Order) (msg : String) {t t2 t3 : TcpTransmit} (hs : Synced t)
    (h1 : (t.emit (.log msg)).wgDone = .ok t2) (h2 : t2.Close o = .ok t3) :
    Synced t3 ∧ t3.IsClose = true := by
  obtain ⟨_, rfl⟩ := wgDone_ok h1
  have hs2 : Synced { t.emit (.log msg) with wg := (t.emit (.log msg)).wg - 1 } := by
    refine hs.congr rfl rfl ?_
    simp [TcpTransmit.emit, List.count_append, List.count_cons]
  exact Close_synced o _ t3 hs2 h2

theorem send_ok {ch ch2 : Chan} {m : ConnMsgT} (h : ch.send m = some ch2) :
    ch.buf.length < ch.cap ∧ ch2 = { ch with buf := ch.buf ++ [m] } := by
  unfold Chan.send at h
  split at h
  · cases h
    exact ⟨by assumption, rfl⟩
  · cases h

theorem send_none {ch : Chan} {m : ConnMsgT} (h : ch.send m = none) : ch.cap ≤ ch.buf.length := by
  unfold Chan.send at h
  split at h
  · cases h
  · omega

theorem step_synced (a : Action) (t t1 : TcpTransmit) (hs : Synced t)
    (h : step a t = some t1) : Synced t1 ∧ (t.IsClose = true → t1.IsClose = true) := by
  cases a with
  | start dial listen =>
    simp only [step, Option.some.injEq] at h
    subst h
    rcases dial with e | conn
    · exact ⟨hs, id⟩
    · rcases listen with e | l
      · exact ⟨hs.congr rfl rfl rfl, id⟩
      · refine ⟨hs.congr rfl rfl ?_, id⟩
        simp [TcpTransmit.Start, TcpTransmit.emit, List.count_append, List.count_cons]
  | stop o =>
    simp only [step, TcpTransmit.Stop] at h
    cases hcl : t.Close o with
    | error e => rw [hcl] at h; cases h
    | ok t2 =>
      rw [hcl] at h
      cases h
      exact ⟨(Close_synced o t _ hs hcl).1, fun _ => (Close_synced o t _ hs hcl).2⟩
  | close o =>
    simp only [step] at h
    cases hcl : t.Close o with
    | error e => rw [hcl] at h; cases h
    | ok t2 =>
      rw [hcl] at h
      cases h
      exact ⟨(Close_synced o t _ hs hcl).1, fun _ => (Close_synced o t _ hs hcl).2⟩
  | targetEnter =>
    simp only [step, Option.some.injEq] at h
    subst h
    exact ⟨hs.congr rfl rfl rfl, id⟩
  | targetBody o wr rd =>
    simp only [step, TcpTransmit.TargetMsgProc_body] at h
    cases hcr : t.ConnRemote with
    | none => rw [hcr] at h; cases h
    | some remote =>
      rw [hcr] at h
      rcases rd with e | b
      · simp only at h
        cases hd : (t.emit (.log "TargetMsg read err")).wgDone with
        | error e2 => rw [hd] at h; cases h
        | ok t2 =>
          rw [hd] at h
          simp only at h
          cases hcl : t2.Close o with
          | error e3 => rw [hcl] at h; cases h
          | ok t3 =>
            rw [hcl] at h
            cases h
            exact ⟨(exit_synced o _ hs hd hcl).1, fun _ => (exit_synced o _ hs hd hcl).2⟩
      · simp only [foldl_emit] at h
        have hcount : (t.trace ++ (t.Items o).map (fun k => Event.connWrite k b (wr k))).count
            Event.chanClose = t.trace.count Event.chanClose := by
          rw [List.count_append, count_chanClose_map _ (fun _ hk => by cases hk)]
          rfl
        split at h
        · cases h
          exact ⟨hs.congr rfl rfl hcount, id⟩
        · cases h
          exact ⟨hs.congr rfl rfl hcount, id⟩
  | targetSend m =>
    simp only [step, TcpTransmit.TargetMsgProc_send] at h
    split at h
    · cases h
      exact ⟨hs.congr rfl rfl rfl, id⟩
    · cases h
  | acceptEnter =>
    simp only [step, Option.some.injEq] at h
    subst h
    exact ⟨hs.congr rfl rfl rfl, id⟩
  | acceptBody o r =>
    simp only [step, TcpTransmit.acceptLoop_body] at h
    rcases r with e | client
    · simp only at h
      cases hd : (t.emit (.log "accept err")).wgDone with
      | error e2 => rw [hd] at h; cases h
      | ok t2 =>
        rw [hd] at h
        simp only at h
        cases hcl : t2.Close o with
        | error e3 => rw [hcl] at h; cases h
        | ok t3 =>
          rw [hcl] at h
          cases h
          exact ⟨(exit_synced o _ hs hd hcl).1, fun _ => (exit_synced o _ hs hd hcl).2⟩
    · cases h
      exact ⟨hs.congr rfl rfl rfl, id⟩
  | clientEnter =>
    simp only [step, Option.some.injEq] at h
    subst h
    exact ⟨hs.congr rfl rfl rfl, id⟩
  | clientBody wr cli rd =>
    simp only [step, TcpTransmit.ClientMsgProc_body] at h
    rcases rd with e | b
    · simp only at h
      cases hd : (t.emit (.log "TargetMsg read err")).wgDone with
      | error e2 => rw [hd] at h; cases h
      | ok t2 =>
        rw [hd] at h
        cases h
        obtain ⟨_, rfl⟩ := wgDone_ok hd
        refine ⟨hs.congr rfl rfl ?_, id⟩
        simp [TcpTransmit.emit, List.count_append, List.count_cons]
    · simp only at h
      cases hcr : t.ConnRemote with
      | none => rw [hcr] at h; cases h
      | some remote =>
        rw [hcr] at h
        simp only at h
        have hcount : (t.emit (.connWrite remote b (wr remote))).trace.count Event.chanClose
            = t.trace.count Event.chanClose := by
          simp [TcpTransmit.emit, List.count_append, List.count_cons]
        split at h
        · cases h
          exact ⟨hs.congr rfl rfl hcount, id⟩
        · cases h
          exact ⟨hs.congr rfl rfl hcount, id⟩
  | clientSend m =>
    simp only [step, TcpTransmit.ClientMsgProc_send] at h
    split at h
    · cases h
      exact ⟨hs.congr rfl rfl rfl, id⟩
    · cases h
  | readRemote pick =>
    simp only [step, Option.some.injEq] at h
    subst h
    unfold TcpTransmit.ReadRemoteChanMsg
    split
    · exact ⟨hs.congr rfl rfl rfl, id⟩
    · split
      · exact ⟨hs.congr rfl rfl rfl, id⟩
      · exact ⟨hs, id⟩
    · exact ⟨hs, id⟩
    · exact ⟨hs, id⟩
  | readClient pick =>
    simp only [step, Option.some.injEq] at h
    subst h
    unfold TcpTransmit.ReadClientChanMsg
    split
    · exact ⟨hs.congr rfl rfl rfl, id⟩
    · split
      · exact ⟨hs.congr rfl rfl rfl, id⟩
      · exact ⟨hs, id⟩
    · exact ⟨hs, id⟩
    · exact ⟨hs, id⟩
  | waitClose =>
    simp only [step, TcpTransmit.WaitClose] at h
    split at h
    · cases h
      refine ⟨hs.congr rfl rfl ?_, id⟩
      simp [TcpTransmit.emit, List.count_append, List.count_cons]
    · cases h

theorem run_synced (acts : List Action) (t t1 : TcpTransmit) (hs : Synced t)
    (h : run acts t = some t1) : Synced t1 ∧ (t.IsClose = true → t1.IsClose = true) := by
  induction acts generalizing t with
  | nil =>
    simp only [run, Option.some.injEq] at h
    subst h
    exact ⟨hs, id⟩
  | cons a rest ih =>
    simp only [run] at h
    cases hst : step a t with
    | none => rw [hst] at h; cases h
    | some t2 =>
      rw [hst] at h
      have h1 := step_synced a t t2 hs hst
      have h2 := ih t2 h1.1 h
      exact ⟨h2.1, fun hc => h2.2 (h1.2 hc)⟩

theorem synced_new : Synced NewTcpTransmit := ⟨rfl, rfl⟩

theorem foldl_append_some (l : List Conn) (xs : List String) :
    l.foldl (fun (acc : StringSlice) k => acc.append k.remoteAddr) (some xs)
      = some (xs ++ l.map Conn.remoteAddr) := by
  induction l generalizing xs with
  | nil => simp
  | cons k ks ih =>
    rw [List.foldl_cons]
    have hstep : StringSlice.append (some xs) k.remoteAddr = some (xs ++ [k.remoteAddr]) := rfl
    rw [hstep, ih]
    simp [List.append_assoc]

theorem collectClients_eq (o : Order) (t : TcpTransmit) :
    t.collectClients o
      = if t.Items o = [] then none else some ((t.Items o).map Conn.remoteAddr) := by
  unfold TcpTransmit.collectClients
  cases hI : t.Items o with
  | nil => simp
  | cons k ks =>
    rw [List.foldl_cons]
    have hstep : StringSlice.append none k.remoteAddr = some [k.remoteAddr] := rfl
    rw [hstep, foldl_append_some]
    simp

theorem GetClientsList_eq (o : Order) (t : TcpTransmit) :
    t.GetClientsList o
      = Text.doc [("clientsList",
          if (t.Items o).map Conn.remoteAddr = [] then JsonValue.null
          else JsonValue.strArray ((t.Items o).map Conn.remoteAddr))] := by
  unfold TcpTransmit.GetClientsList
  rw [collectClients_eq]
  cases hI : t.Items o with
  | nil => simp [jsonMarshalResult]
  | cons k ks => simp [jsonMarshalResult]

@[simp] theorem chan_withBuf (s : Side) (t : TcpTransmit) (q : List ConnMsgT) :
    s.chan (s.withBuf t q) = { s.chan t with buf := q } := by
  cases s <;> rfl

@[simp] theorem closeChan_withBuf (s : Side) (t : TcpTransmit) (q : List ConnMsgT) :
    (s.withBuf t q).closeChan = t.closeChan := by
  cases s <;> rfl

@[simp] theorem withBuf_withBuf (s : Side) (t : TcpTransmit) (q q2 : List ConnMsgT) :
    s.withBuf (s.withBuf t q) q2 = s.withBuf t q2 := by
  cases s <;> rfl

theorem withBuf_self (s : Side) (t : TcpTransmit) : s.withBuf t (s.chan t).buf = t := by
  cases s <;> rfl

theorem enqueue_eq (s : Side) (t : TcpTransmit) (m : ConnMsgT) :
    s.enqueue t m
      = if (s.chan t).buf.length < (s.chan t).cap
        then some (s.withBuf t ((s.chan t).buf ++ [m])) else none := by
  cases s
  · by_cases hlt : t.TargetBuf.buf.length < t.TargetBuf.cap <;>
      simp [Side.enqueue, Side.chan, Side.withBuf, TcpTransmit.TargetMsgProc_send, Chan.send, hlt]
  · by_cases hlt : t.ClientsBuf.buf.length < t.ClientsBuf.cap <;>
      simp [Side.enqueue, Side.chan, Side.withBuf, TcpTransmit.ClientMsgProc_send, Chan.send, hlt]

theorem poll_open_nil (s : Side) (t : TcpTransmit) (p : Bool) (hopen : t.closeChan = false)
    (hbuf : (s.chan t).buf = []) : s.poll t p = (.error "empty", t) := by
  cases s <;> simp only [Side.chan] at hbuf <;>
    simp [Side.poll, TcpTransmit.ReadRemoteChanMsg, TcpTransmit.ReadClientChanMsg, hbuf, hopen]

theorem poll_open_cons (s : Side) (t : TcpTransmit) (p : Bool) (m : ConnMsgT)
    (rest : List ConnMsgT) (hopen : t.closeChan = false) (hbuf : (s.chan t).buf = m :: rest) :
    s.poll t p = (jsonMarshalConnMsgT m, s.withBuf t rest) := by
  cases s <;> simp only [Side.chan] at hbuf <;>
    simp [Side.poll, Side.withBuf, TcpTransmit.ReadRemoteChanMsg,
      TcpTransmit.ReadClientChanMsg, hbuf, hopen]

theorem session_order (s : Side) (ops : List BufOp) (t t2 : TcpTransmit)
    (rs : List (Except String JsonDoc)) (hopen : t.closeChan = false)
    (h : session s ops t = some (rs, t2)) :
    rs.filter isData ++ (s.chan t2).buf.map jsonMarshalConnMsgT
        = ((s.chan t).buf ++ enqueued ops).map jsonMarshalConnMsgT
      ∧ (∀ r ∈ rs, isData r = false → r = .error "empty") := by
  induction ops generalizing t rs with
  | nil =>
    simp only [session, Option.some.injEq, Prod.mk.injEq] at h
    obtain ⟨rfl, rfl⟩ := h
    simp [enqueued]
  | cons op ops ih =>
    cases op with
    | enqueue m =>
      simp only [session, enqueue_eq] at h
      split at h
      · simp only [Option.some_bind] at h
        have := ih _ rs (by simp [hopen]) h
        simpa [enqueued, List.append_assoc] using this
      · cases h
    | poll p =>
      simp only [session, Option.map_eq_some', Prod.mk.injEq] at h
      obtain ⟨⟨rs1, t3⟩, hses, hrs, ht⟩ := h
      simp only at hrs ht
      subst ht
      cases hbuf : (s.chan t).buf with
      | nil =>
        rw [poll_open_nil s t p hopen hbuf] at hses hrs
        simp only at hses hrs
        subst hrs
        have := ih t rs1 hopen hses
        rw [hbuf] at this
        refine ⟨?_, ?_⟩
        · simpa [enqueued, isData] using this.1
        · intro r hr hd
          rcases List.mem_cons.1 hr with rfl | hr
          · rfl
          · exact this.2 r hr hd
      | cons m rest =>
        rw [poll_open_cons s t p m rest hopen hbuf] at hses hrs
        simp only at hses hrs
        subst hrs
        have := ih _ rs1 (by simp [hopen]) hses
        simp only [chan_withBuf] at this
        refine ⟨?_, ?_⟩
        · simp only [jsonMarshalConnMsgT, isData, List.filter_cons_of_pos, List.cons_append,
            List.map_cons, enqueued]
          rw [this.1]
        · intro r hr hd
          rcases List.mem_cons.1 hr with rfl | hr
          · simp [jsonMarshalConnMsgT, isData] at hd
          · exact this.2 r hr hd

theorem session_total (s : Side) (ops : List BufOp) (t : TcpTransmit)
    (hroom : (s.chan t).buf.length + (enqueued ops).length ≤ (s.chan t).cap) :
    ∃ r, session s ops t = some r := by
  induction ops generalizing t with
  | nil => exact ⟨_, rfl⟩
  | cons op ops ih =>
    cases op with
    | enqueue m =>
      simp only [enqueued, List.length_cons] at hroom
      have hlt : (s.chan t).buf.length < (s.chan t).cap := by omega
      simp only [session, enqueue_eq, hlt, if_true, Option.some_bind]
      apply ih
      simp only [chan_withBuf, List.length_append, List.length_singleton]
      omega
    | poll p =>
      simp only [enqueued] at hroom
      have hle : (s.chan (s.poll t p).2).buf.length ≤ (s.chan t).buf.length
          ∧ (s.chan (s.poll t p).2).cap = (s.chan t).cap := by
        cases s <;>
          simp only [Side.poll, Side.chan, TcpTransmit.ReadRemoteChanMsg,
            TcpTransmit.ReadClientChanMsg] <;>
          split <;> (try split) <;> simp_all
      obtain ⟨r, hr⟩ := ih (s.poll t p).2 (by omega)
      refine ⟨((s.poll t p).1 :: r.1, r.2), ?_⟩
      simp only [session, hr, Option.map_some']

theorem session_append (s : Side) (ops ops2 : List BufOp) (t t1 t2 : TcpTransmit)
    (rs rs2 : List (Except String JsonDoc)) (h1 : session s ops t = some (rs, t1))
    (h2 : session s ops2 t1 = some (rs2, t2)) :
    session s (ops ++ ops2) t = some (rs ++ rs2, t2) := by
  induction ops generalizing t rs with
  | nil =>
    simp only [session, Option.some.injEq, Prod.mk.injEq] at h1
    obtain ⟨rfl, rfl⟩ := h1
    simpa using h2
  | cons op ops ih =>
    cases op with
    | enqueue m =>
      simp only [session, List.cons_append] at h1 ⊢
      cases he : s.enqueue t m with
      | none => rw [he] at h1; cases h1
      | some t3 =>
        rw [he] at h1
        simp only [Option.some_bind] at h1 ⊢
        exact ih t3 rs h1
    | poll p =>
      simp only [session, List.cons_append, Option.map_eq_some', Prod.mk.injEq] at h1 ⊢
      obtain ⟨⟨rs1, t3⟩, hses, hrs, ht⟩ := h1
      simp only at hrs ht
      subst ht hrs
      exact ⟨(rs1 ++ rs2, t2), ih _ rs1 hses, by simp, rfl⟩

theorem session_enqueues (s : Side) (es : List ConnMsgT) (t : TcpTransmit)
    (hroom : (s.chan t).buf.length + es.length ≤ (s.chan t).cap) :
    session s (es.map BufOp.enqueue) t = some ([], s.withBuf t ((s.chan t).buf ++ es)) := by
  induction es generalizing t with
  | nil => simp [session, withBuf_self]
  | cons m es ih =>
    simp only [List.length_cons] at hroom
    have hlt : (s.chan t).buf.length < (s.chan t).cap := by omega
    simp only [List.map_cons, session, enqueue_eq, hlt, if_true, Option.some_bind]
    rw [ih]
    · simp [List.append_assoc]
    · simp only [chan_withBuf, List.length_append, List.length_singleton]
      omega

theorem session_polls (s : Side) (picks : List Bool) (t : TcpTransmit)
    (hopen : t.closeChan = false) (hlen : picks.length = (s.chan t).buf.length) :
    session s (picks.map BufOp.poll) t
      = some ((s.chan t).buf.map jsonMarshalConnMsgT, s.withBuf t []) := by
  induction picks generalizing t with
  | nil =>
    have hnil : (s.chan t).buf = [] := List.length_eq_zero.1 hlen.symm
    have := withBuf_self s t
    rw [hnil] at this
    simp [session, hnil, this]
  | cons p picks ih =>
    cases hbuf : (s.chan t).buf with
    | nil => rw [hbuf] at hlen; cases hlen
    | cons m rest =>
      rw [hbuf] at hlen
      simp only [List.length_cons, Nat.add_right_cancel_iff] at hlen
      simp only [List.map_cons, session, poll_open_cons s t p m rest hopen hbuf]
      rw [ih (s.withBuf t rest) (by simp [hopen]) (by simp [hlen])]
      simp

theorem Close_frame (o : Order) (t t1 : TcpTransmit) (h : t.Close o = .ok t1) :
    t1.TargetBuf = t.TargetBuf ∧ t1.ClientsBuf = t.ClientsBuf := by
  obtain ⟨cr, ls, cl, cb, tb, wg, cc, ic, tr⟩ := t
  cases ic
  · cases cc
    · rw [Close_of_open _ _ rfl rfl] at h
      cases h
      exact ⟨rfl, rfl⟩
    · cases cr <;> cases ls <;>
        simp only [TcpTransmit.Close, TcpTransmit.Items, foldl_emit] at h <;>
        simp [TcpTransmit.closeSignal, TcpTransmit.emit] at h
  · rw [Close_of_closed _ _ rfl] at h
    cases h
    exact ⟨rfl, rfl⟩

theorem exit_frame (o : Order) (msg : String) {t t2 t3 : TcpTransmit}
    (h1 : (t.emit (.log msg)).wgDone = .ok t2) (h2 : t2.Close o = .ok t3) :
    ∀ s : Side, s.chan t3 = s.chan t := by
  obtain ⟨_, rfl⟩ := wgDone_ok h1
  have hf := Close_frame o _ t3 h2
  intro s
  cases s
  · exact hf.1
  · exact hf.2

/-- What one step does to the two message buffers: nothing, or one send into a buffer with
room, or the removal of the oldest entry of a side by a poll of that side. -/
theorem step_bufs (a : Action) (t t1 : TcpTransmit) (h : step a t = some t1) :
    (∀ s : Side, s.chan t1 = s.chan t)
    ∨ (∃ s0 m, (s0.chan t).buf.length < (s0.chan t).cap ∧ s0.isPoll a = false
        ∧ ∀ s : Side, s.chan t1
            = if s = s0 then { s.chan t with buf := (s.chan t).buf ++ [m] } else s.chan t)
    ∨ (∃ s0 m rest, s0.isPoll a = true ∧ (s0.chan t).buf = m :: rest
        ∧ ∀ s : Side, s.chan t1 = if s = s0 then { s.chan t with buf := rest } else s.chan t) := by
  cases a with
  | start dial listen =>
    simp only [step, Option.some.injEq] at h
    subst h
    left
    intro s
    rcases dial with e | conn
    · rfl
    · rcases listen with e | l <;> cases s <;> rfl
  | stop o =>
    simp only [step, TcpTransmit.Stop] at h
    cases hcl : t.Close o with
    | error e => rw [hcl] at h; cases h
    | ok t2 =>
      rw [hcl] at h
      cases h
      left
      intro s
      cases s
      · exact (Close_frame o t _ hcl).1
      · exact (Close_frame o t _ hcl).2
  | close o =>
    simp only [step] at h
    cases hcl : t.Close o with
    | error e => rw [hcl] at h; cases h
    | ok t2 =>
      rw [hcl] at h
      cases h
      left
      intro s
      cases s
      · exact (Close_frame o t _ hcl).1
      · exact (Close_frame o t _ hcl).2
  | targetEnter =>
    simp only [step, Option.some.injEq] at h
    subst h
    exact Or.inl (fun s => by cases s <;> rfl)
  | targetBody o wr rd =>
    simp only [step, TcpTransmit.TargetMsgProc_body] at h
    cases hcr : t.ConnRemote with
    | none => rw [hcr] at h; cases h
    | some remote =>
      rw [hcr] at h
      rcases rd with e | b
      · simp only at h
        cases hd : (t.emit (.log "TargetMsg read err")).wgDone with
        | error e2 => rw [hd] at h; cases h
        | ok t2 =>
          rw [hd] at h
          simp only at h
          cases hcl : t2.Close o with
          | error e3 => rw [hcl] at h; cases h
          | ok t3 =>
            rw [hcl] at h
            cases h
            exact Or.inl (exit_frame o _ hd hcl)
      · simp only [foldl_emit, Chan.send] at h
        by_cases hlt : t.TargetBuf.buf.length < t.TargetBuf.cap
        · simp only [hlt, if_true, LoopResult.state, Option.some.injEq] at h
          subst h
          right; left
          exact ⟨.remote, _, hlt, rfl, fun s => by cases s <;> rfl⟩
        · simp only [hlt, if_false, LoopResult.state, Option.some.injEq] at h
          subst h
          exact Or.inl (fun s => by cases s <;> rfl)
  | targetSend m =>
    simp only [step, TcpTransmit.TargetMsgProc_send, Chan.send] at h
    by_cases hlt : t.TargetBuf.buf.length < t.TargetBuf.cap
    · simp only [hlt, if_true, Option.some.injEq] at h
      subst h
      right; left
      exact ⟨.remote, m, hlt, rfl, fun s => by cases s <;> rfl⟩
    · simp only [hlt, if_false] at h
      cases h
  | acceptEnter =>
    simp only [step, Option.some.injEq] at h
    subst h
    exact Or.inl (fun s => by cases s <;> rfl)
  | acceptBody o r =>
    simp only [step, TcpTransmit.acceptLoop_body] at h
    rcases r with e | client
    · simp only at h
      cases hd : (t.emit (.log "accept err")).wgDone with
      | error e2 => rw [hd] at h; cases h
      | ok t2 =>
        rw [hd] at h
        simp only at h
        cases hcl : t2.Close o with
        | error e3 => rw [hcl] at h; cases h
        | ok t3 =>
          rw [hcl] at h
          cases h
          exact Or.inl (exit_frame o _ hd hcl)
    · cases h
      exact Or.inl (fun s => by cases s <;> rfl)
  | clientEnter =>
    simp only [step, Option.some.injEq] at h
    subst h
    exact Or.inl (fun s => by cases s <;> rfl)
  | clientBody wr cli rd =>
    simp only [step, TcpTransmit.ClientMsgProc_body] at h
    rcases rd with e | b
    · simp only at h
      cases hd : (t.emit (.log "TargetMsg read err")).wgDone with
      | error e2 => rw [hd] at h; cases h
      | ok t2 =>
        rw [hd] at h
        cases h
        obtain ⟨_, rfl⟩ := wgDone_ok hd
        exact Or.inl (fun s => by cases s <;> rfl)
    · simp only at h
      cases hcr : t.ConnRemote with
      | none => rw [hcr] at h; cases h
      | some remote =>
        rw [hcr] at h
        simp only [Chan.send] at h
        by_cases hlt : t.ClientsBuf.buf.length < t.ClientsBuf.cap
        · have hlt2 : (t.emit (.connWrite remote b (wr remote))).ClientsBuf.buf.length
              < (t.emit (.connWrite remote b (wr remote))).ClientsBuf.cap := hlt
          simp only [hlt2, if_true, LoopResult.state, Option.some.injEq] at h
          subst h
          right; left
          exact ⟨.client, _, hlt, rfl, fun s => by cases s <;> rfl⟩
        · have hlt2 : ¬ (t.emit (.connWrite remote b (wr remote))).ClientsBuf.buf.length
              < (t.emit (.connWrite remote b (wr remote))).ClientsBuf.cap := hlt
          simp only [hlt2, if_false, LoopResult.state, Option.some.injEq] at h
          subst h
          exact Or.inl (fun s => by cases s <;> rfl)
  | clientSend m =>
    simp only [step, TcpTransmit.ClientMsgProc_send, Chan.send] at h
    by_cases hlt : t.ClientsBuf.buf.length < t.ClientsBuf.cap
    · simp only [hlt, if_true, Option.some.injEq] at h
      subst h
      right; left
      exact ⟨.client, m, hlt, rfl, fun s => by cases s <;> rfl⟩
    · simp only [hlt, if_false] at h
      cases h
  | readRemote pick =>
    simp only [step, Option.some.injEq] at h
    subst h
    cases hbuf : t.TargetBuf.buf with
    | nil =>
      left
      intro s
      cases hc : t.closeChan <;> cases s <;>
        simp [TcpTransmit.ReadRemoteChanMsg, hbuf, hc]
    | cons m rest =>
      by_cases hdata : t.closeChan = false ∨ pick = true
      · right; right
        refine ⟨.remote, m, rest, rfl, hbuf, ?_⟩
        intro s
        rcases hdata with hc | hp <;> cases s <;>
          simp [TcpTransmit.ReadRemoteChanMsg, hbuf, Side.chan, *]
        cases hc : t.closeChan <;> simp
        cases hc : t.closeChan <;> simp
      · left
        intro s
        have hc : t.closeChan = true := by
          cases hcc : t.closeChan
          · exact absurd (Or.inl hcc) hdata
          · rfl
        have hp : pick = false := by
          cases hpp : pick
          · rfl
          · exact absurd (Or.inr hpp) hdata
        cases s <;> simp [TcpTransmit.ReadRemoteChanMsg, hbuf, hc, hp]
  | readClient pick =>
    simp only [step, Option.some.injEq] at h
    subst h
    cases hbuf : t.ClientsBuf.buf with
    | nil =>
      left
      intro s
      cases hc : t.closeChan <;> cases s <;>
        simp [TcpTransmit.ReadClientChanMsg, hbuf, hc]
    | cons m rest =>
      by_cases hdata : t.closeChan = false ∨ pick = true
      · right; right
        refine ⟨.client, m, rest, rfl, hbuf, ?_⟩
        intro s
        rcases hdata with hc | hp <;> cases s <;>
          simp [TcpTransmit.ReadClientChanMsg, hbuf, Side.chan, *]
        cases hc : t.closeChan <;> simp
        cases hc : t.closeChan <;> simp
      · left
        intro s
        have hc : t.closeChan = true := by
          cases hcc : t.closeChan
          · exact absurd (Or.inl hcc) hdata
          · rfl
        have hp : pick = false := by
          cases hpp : pick
          · rfl
          · exact absurd (Or.inr hpp) hdata
        cases s <;> simp [TcpTransmit.ReadClientChanMsg, hbuf, hc, hp]
  | waitClose =>
    simp only [step, TcpTransmit.WaitClose] at h
    split at h
    · cases h
      exact Or.inl (fun s => by cases s <;> rfl)
    · cases h

theorem closed_poll_results (s : Side) (t : TcpTransmit) (m : ConnMsgT)
    (rest : List ConnMsgT) (hclosed : t.closeChan = true) (hbuf : (s.chan t).buf = m :: rest) :
    s.poll t true = (jsonMarshalConnMsgT m, s.withBuf t rest)
      ∧ s.poll t false = (.error s.closedError, t) := by
  cases s <;> simp only [Side.chan] at hbuf <;>
    simp [Side.poll, Side.withBuf, Side.closedError, TcpTransmit.ReadRemoteChanMsg,
      TcpTransmit.ReadClientChanMsg, hbuf, hclosed]

theorem step_bounded (a : Action) (t t1 : TcpTransmit)
    (hb : ∀ s : Side, (s.chan t).cap = 2048 ∧ (s.chan t).buf.length ≤ 2048)
    (h : step a t = some t1) :
    ∀ s : Side, (s.chan t1).cap = 2048 ∧ (s.chan t1).buf.length ≤ 2048 := by
  intro s
  have hs := hb s
  rcases step_bufs a t t1 h with hsame | ⟨s0, m, hlt, _, hpush⟩ | ⟨s0, m, rest, _, hbuf, hpop⟩
  · rw [hsame s]
    exact hs
  · rw [hpush s]
    by_cases hss : s = s0
    · subst hss
      simp only [if_true, List.length_append, List.length_singleton]
      exact ⟨hs.1, by omega⟩
    · simp only [hss, if_false]
      exact hs
  · rw [hpop s]
    by_cases hss : s = s0
    · subst hss
      rw [hbuf] at hs
      simp only [List.length_cons] at hs
      simp only [if_true]
      exact ⟨hs.1, by omega⟩
    · simp only [hss, if_false]
      exact hs

theorem run_bounded (acts : List Action) (t t1 : TcpTransmit)
    (hb : ∀ s : Side, (s.chan t).cap = 2048 ∧ (s.chan t).buf.length ≤ 2048)
    (h : run acts t = some t1) :
    ∀ s : Side, (s.chan t1).cap = 2048 ∧ (s.chan t1).buf.length ≤ 2048 := by
  induction acts generalizing t with
  | nil =>
    simp only [run, Option.some.injEq] at h
    subst h
    exact hb
  | cons a rest ih =>
    simp only [run] at h
    cases hst : step a t with
    | none => rw [hst] at h; cases h
    | some t2 =>
      rw [hst] at h
      exact ih t2 (step_bounded a t t2 hb hst) h

theorem step_full (s : Side) (a : Action) (t t1 : TcpTransmit)
    (hfull : (s.chan t).cap ≤ (s.chan t).buf.length) (h : step a t = some t1)
    (hnp : s.isPoll a = false) : s.chan t1 = s.chan t := by
  rcases step_bufs a t t1 h with hsame | ⟨s0, m, hlt, _, hpush⟩ | ⟨s0, m, rest, hp, _, hpop⟩
  · exact hsame s
  · rw [hpush s]
    by_cases hss : s = s0
    · subst hss
      omega
    · simp only [hss, if_false]
  · rw [hpop s]
    by_cases hss : s = s0
    · subst hss
      rw [hnp] at hp
      cases hp
    · simp only [hss, if_false]

theorem run_full (s : Side) (more : List Action) (t t1 : TcpTransmit)
    (hfull : (s.chan t).cap ≤ (s.chan t).buf.length) (h : run more t = some t1)
    (hnp : ∀ a ∈ more, s.isPoll a = false) : s.chan t1 = s.chan t := by
  induction more generalizing t with
  | nil =>
    simp only [run, Option.some.injEq] at h
    subst h
    rfl
  | cons a rest ih =>
    simp only [run] at h
    cases hst : step a t with
    | none => rw [hst] at h; cases h
    | some t2 =>
      rw [hst] at h
      have h2 := step_full s a t t2 hfull hst (hnp a (List.mem_cons_self a rest))
      have h3 := ih t2 (by rw [h2]; exact hfull) h
        (fun x hx => hnp x (List.mem_cons_of_mem a hx))
      rw [h3, h2]

theorem enqueue_full (s : Side) (t : TcpTransmit) (m : ConnMsgT)
    (hfull : (s.chan t).cap ≤ (s.chan t).buf.length) : s.enqueue t m = none := by
  rw [enqueue_eq]
  have : ¬ (s.chan t).buf.length < (s.chan t).cap := by omega
  simp only [this, if_false]

theorem pass_full (s : Side) (o : Order) (wr : Conn → Bool) (cli remote : Conn)
    (t : TcpTransmit) (b : Bytes) (hcr : t.ConnRemote = some remote)
    (hfull : (s.chan t).cap ≤ (s.chan t).buf.length) :
    ∃ tw m, s.pass o wr cli t b = .blocked tw m ∧ s.chan tw = s.chan t ∧ m.Msg = b := by
  cases s with
  | remote =>
    simp only [Side.chan] at hfull
    have hnlt : ¬ t.TargetBuf.buf.length < t.TargetBuf.cap := by omega
    refine ⟨{ t with
        trace := t.trace ++ (t.Items o).map (fun k => Event.connWrite k b (wr k)) },
      { IpAddr := remote.remoteAddr, Msg := b }, ?_, ?_, ?_⟩
    · simp only [Side.pass, TcpTransmit.TargetMsgProc_body, hcr, foldl_emit, Chan.send, hnlt,
        if_false]
    · rfl
    · rfl
  | client =>
    simp only [Side.chan] at hfull
    have hnlt : ¬ (t.emit (.connWrite remote b (wr remote))).ClientsBuf.buf.length
        < (t.emit (.connWrite remote b (wr remote))).ClientsBuf.cap := by
      show ¬ t.ClientsBuf.buf.length < t.ClientsBuf.cap
      omega
    refine ⟨t.emit (.connWrite remote b (wr remote)),
      { IpAddr := cli.remoteAddr, Msg := b }, ?_, ?_, ?_⟩
    · simp only [Side.pass, TcpTransmit.ClientMsgProc_body, hcr, Chan.send, hnlt, if_false]
    · rfl
    · rfl

theorem poll_cons_cases (s : Side) (t : TcpTransmit) (p : Bool) (m : ConnMsgT)
    (rest : List ConnMsgT) (hbuf : (s.chan t).buf = m :: rest) :
    s.poll t p = (jsonMarshalConnMsgT m, s.withBuf t rest)
      ∨ s.poll t p = (.error s.closedError, t) := by
  cases hc : t.closeChan with
  | false => exact Or.inl (poll_open_cons s t p m rest hc hbuf)
  | true =>
    cases p
    · exact Or.inr (closed_poll_results s t m rest hc hbuf).2
    · exact Or.inl (closed_poll_results s t m rest hc hbuf).1

theorem run_targetSends (n : Nat) (m : ConnMsgT) (t : TcpTransmit)
    (hroom : t.TargetBuf.buf.length + n ≤ t.TargetBuf.cap) :
    run (List.replicate n (Action.targetSend m)) t
      = some (Side.remote.withBuf t (t.TargetBuf.buf ++ List.replicate n m)) := by
  induction n generalizing t with
  | zero =>
    have := withBuf_self Side.remote t
    simp only [Side.chan] at this
    simp [run, this]
  | succ n ih =>
    have hlt : (Side.remote.chan t).buf.length < (Side.remote.chan t).cap := by
      simp only [Side.chan]
      omega
    have hstep : step (Action.targetSend m) t
        = some (Side.remote.withBuf t (t.TargetBuf.buf ++ [m])) := by
      have := enqueue_eq Side.remote t m
      simp only [hlt, if_true] at this
      exact this
    simp only [List.replicate_succ, run, hstep, Option.some_bind]
    rw [ih]
    · simp [Side.withBuf, List.append_assoc]
    · simp only [Side.withBuf, List.length_append, List.length_singleton]
      omega

theorem run_fullRun : run fullRun NewTcpTransmit = some fullRelay :=
  run_targetSends 2048 msgOne NewTcpTransmit (by decide)

/-! ## Shutdown -/

/-- C1: `Close` is idempotent. On every relay state whose closed-flag agrees with its
close-signal (every state a run reaches, and the relay that was never started), `Close`
returns; a second `Close`, whatever order it would traverse the registry in, returns
without error and leaves the state of the first unchanged, so that `Close` after `Close`
equals `Close` (and the same for `Stop`); the close-signal is fired by the first call
exactly when the relay was still open, and not again. -/
theorem Close_idempotent (o o2 : Order) (t : TcpTransmit) (h : t.closeChan = t.IsClose) :
    ∃ t1, t.Close o = .ok t1 ∧ t1.Close o2 = .ok t1
      ∧ (t.Close o >>= TcpTransmit.Close o2) = t.Close o
      ∧ (t.Stop o >>= TcpTransmit.Stop o2) = t.Stop o
      ∧ t1.trace.count Event.chanClose
          = t.trace.count Event.chanClose + (if t.IsClose then 0 else 1) := by
  cases hic : t.IsClose with
  | true =>
    have h1 := Close_of_closed o t hic
    have h2 := Close_of_closed o2 t hic
    refine ⟨t, h1, h2, ?_, ?_, by simp⟩
    · rw [h1]; exact h2
    · simp only [TcpTransmit.Stop]; rw [h1]; exact h2
  | false =>
    have hc : t.closeChan = false := by rw [h, hic]
    have h1 := Close_of_open o t hic hc
    have h2 := Close_of_closed o2
      { t with IsClose := true, closeChan := true, trace := t.trace ++ closeEvents o t } rfl
    refine ⟨_, h1, h2, ?_, ?_, ?_⟩
    · rw [h1]; exact h2
    · simp only [TcpTransmit.Stop]; rw [h1]; exact h2
    · simp [List.count_append, count_chanClose_closeEvents]

/-- Witness of C1 at the relay that was never started: no target connection, no listener. -/
theorem Close_idempotent_witness :
    NewTcpTransmit.closeChan = NewTcpTransmit.IsClose ∧
    ∃ t1, NewTcpTransmit.Close Order.asListed = .ok t1 ∧ t1.Close Order.reversed = .ok t1
      ∧ (NewTcpTransmit.Close Order.asListed >>= TcpTransmit.Close Order.reversed)
          = NewTcpTransmit.Close Order.asListed
      ∧ (NewTcpTransmit.Stop Order.asListed >>= TcpTransmit.Stop Order.reversed)
          = NewTcpTransmit.Stop Order.asListed
      ∧ t1.trace.count Event.chanClose
          = NewTcpTransmit.trace.count Event.chanClose
            + (if NewTcpTransmit.IsClose then 0 else 1) :=
  ⟨rfl, Close_idempotent Order.asListed Order.reversed NewTcpTransmit rfl⟩

/-- C2: on a relay whose closed-flag is false (and whose close-signal, which agrees with it,
has not fired), `Close` returns a state in which the target connection, if present, the
listener, if present, and every connection of the registry have been closed by this call,
the closed-flag is true and the close-signal has fired, once; the calls it made are exactly
these; the registry and both message buffers (and the handles and the wait-group counter)
are as before. -/
theorem Close_closes_everything (o : Order) (t : TcpTransmit) (h : t.IsClose = false)
    (hc : t.closeChan = t.IsClose) :
    ∃ t1, t.Close o = .ok t1
      ∧ t1.trace = t.trace ++ closeEvents o t
      ∧ (∀ c, t.ConnRemote = some c → Event.connClose c ∈ closeEvents o t)
      ∧ (∀ l, t.Listener = some l → Event.listenerClose l ∈ closeEvents o t)
      ∧ (∀ k ∈ t.Clients, Event.connClose k ∈ closeEvents o t)
      ∧ (∀ e ∈ closeEvents o t, e = Event.chanClose
          ∨ (∃ c, t.ConnRemote = some c ∧ e = Event.connClose c)
          ∨ (∃ l, t.Listener = some l ∧ e = Event.listenerClose l)
          ∨ (∃ k ∈ t.Clients, e = Event.connClose k))
      ∧ t1.IsClose = true ∧ t1.closeChan = true
      ∧ (closeEvents o t).count Event.chanClose = 1
      ∧ t1.Clients = t.Clients ∧ t1.TargetBuf = t.TargetBuf ∧ t1.ClientsBuf = t.ClientsBuf
      ∧ t1.ConnRemote = t.ConnRemote ∧ t1.Listener = t.Listener ∧ t1.wg = t.wg := by
  have hc2 : t.closeChan = false := by rw [hc, h]
  refine ⟨_, Close_of_open o t h hc2, rfl, ?_, ?_, ?_, ?_, rfl, rfl,
    count_chanClose_closeEvents o t, rfl, rfl, rfl, rfl, rfl, rfl⟩
  · intro c hcr
    simp [closeEvents, hcr]
  · intro l hl
    simp [closeEvents, hl]
  · intro k hk
    have : k ∈ t.Items o := (o.is_perm t.Clients).mem_iff.2 hk
    simp [closeEvents, this]
  · intro e he
    simp only [closeEvents, List.mem_append, List.mem_map, List.mem_singleton,
      Option.mem_toList, Option.mem_def] at he
    rcases he with ((⟨c, hcr, rfl⟩ | ⟨l, hl, rfl⟩) | ⟨k, hk, rfl⟩) | rfl
    · exact Or.inr (Or.inl ⟨c, hcr, rfl⟩)
    · exact Or.inr (Or.inr (Or.inl ⟨l, hl, rfl⟩))
    · exact Or.inr (Or.inr (Or.inr ⟨k, (o.is_perm t.Clients).mem_iff.1 hk, rfl⟩))
    · exact Or.inl rfl

/-- Witness of C2 at a running relay with a target, a listener and two clients. -/
theorem Close_closes_everything_witness :
    sampleRelay.IsClose = false ∧ sampleRelay.closeChan = sampleRelay.IsClose ∧
    ∃ t1, sampleRelay.Close Order.reversed = .ok t1
      ∧ t1.trace = sampleRelay.trace ++ closeEvents Order.reversed sampleRelay
      ∧ (∀ c, sampleRelay.ConnRemote = some c →
          Event.connClose c ∈ closeEvents Order.reversed sampleRelay)
      ∧ (∀ l, sampleRelay.Listener = some l →
          Event.listenerClose l ∈ closeEvents Order.reversed sampleRelay)
      ∧ (∀ k ∈ sampleRelay.Clients, Event.connClose k ∈ closeEvents Order.reversed sampleRelay)
      ∧ (∀ e ∈ closeEvents Order.reversed sampleRelay, e = Event.chanClose
          ∨ (∃ c, sampleRelay.ConnRemote = some c ∧ e = Event.connClose c)
          ∨ (∃ l, sampleRelay.Listener = some l ∧ e = Event.listenerClose l)
          ∨ (∃ k ∈ sampleRelay.Clients, e = Event.connClose k))
      ∧ t1.IsClose = true ∧ t1.closeChan = true
      ∧ (closeEvents Order.reversed sampleRelay).count Event.chanClose = 1
      ∧ t1.Clients = sampleRelay.Clients ∧ t1.TargetBuf = sampleRelay.TargetBuf
      ∧ t1.ClientsBuf = sampleRelay.ClientsBuf
      ∧ t1.ConnRemote = sampleRelay.ConnRemote ∧ t1.Listener = sampleRelay.Listener
      ∧ t1.wg = sampleRelay.wg :=
  ⟨rfl, rfl, Close_closes_everything Order.reversed sampleRelay rfl rfl⟩

/-- C6: in every state that a sequence of relay steps (start, accept, target and client
loop passes, parked sends, polls, `Close`, `Stop`, the join) reaches from
`NewTcpTransmit`, the closed-flag is true exactly when the close-signal has fired, and the
signal has been fired once if the flag is true and never otherwise; the flag is false in
the initial state, and once it is true it is true in every later state. -/
theorem closed_flag_iff_signal (acts : List Action) (t : TcpTransmit)
    (h : run acts NewTcpTransmit = some t) :
    NewTcpTransmit.IsClose = false ∧ NewTcpTransmit.closeChan = false
      ∧ (t.IsClose = true ↔ t.closeChan = true)
      ∧ t.trace.count Event.chanClose = (if t.IsClose then 1 else 0)
      ∧ (∀ more t2, run more t = some t2 → t.IsClose = true → t2.IsClose = true) := by
  have hs := (run_synced acts NewTcpTransmit t synced_new h).1
  refine ⟨rfl, rfl, ?_, hs.2, ?_⟩
  · rw [hs.1]
  · intro more t2 h2
    exact (run_synced more t t2 hs h2).2

/-- Witness of C6: the run that starts the relay, accepts two clients and then loses the
target, which closes the relay. -/
theorem closed_flag_iff_signal_witness :
    run sampleClosingRun NewTcpTransmit = some sampleClosed ∧
    (NewTcpTransmit.IsClose = false ∧ NewTcpTransmit.closeChan = false
      ∧ (sampleClosed.IsClose = true ↔ sampleClosed.closeChan = true)
      ∧ sampleClosed.trace.count Event.chanClose = (if sampleClosed.IsClose then 1 else 0)
      ∧ (∀ more t2, run more sampleClosed = some t2 → sampleClosed.IsClose = true →
          t2.IsClose = true)) :=
  ⟨rfl, closed_flag_iff_signal sampleClosingRun sampleClosed rfl⟩

/-! ## Relay loops -/

/-- C4: one pass of the target loop whose read returns the bytes `b`, on a relay whose
target-origin buffer has room, completes; it writes `b` once to every connection of the
registry, in the order of the traversal and whatever writes fail (`wr`), and makes no
other outside call; it then appends the one entry (remote address of the target, `b`) at
the tail of the target-origin buffer. The registry, the client-origin buffer, the
closed-flag and the close-signal (and the handles and the wait-group counter) are as
before. -/
theorem TargetMsgProc_relays (o : Order) (wr : Conn → Bool) (t : TcpTransmit) (remote : Conn)
    (b : Bytes) (hcr : t.ConnRemote = some remote)
    (hroom : t.TargetBuf.buf.length < t.TargetBuf.cap) :
    ∃ t1, t.TargetMsgProc_body o wr (.ok b) = .next t1
      ∧ t1.trace = t.trace ++ (t.Items o).map (fun k => Event.connWrite k b (wr k))
      ∧ (t.Items o).Perm t.Clients
      ∧ t1.TargetBuf.buf = t.TargetBuf.buf ++ [{ IpAddr := remote.remoteAddr, Msg := b }]
      ∧ t1.TargetBuf.cap = t.TargetBuf.cap
      ∧ t1.Clients = t.Clients ∧ t1.ClientsBuf = t.ClientsBuf ∧ t1.IsClose = t.IsClose
      ∧ t1.closeChan = t.closeChan ∧ t1.ConnRemote = t.ConnRemote
      ∧ t1.Listener = t.Listener ∧ t1.wg = t.wg := by
  refine ⟨{ t with
      trace := t.trace ++ (t.Items o).map (fun k => Event.connWrite k b (wr k))
      TargetBuf := { t.TargetBuf with
        buf := t.TargetBuf.buf ++ [{ IpAddr := remote.remoteAddr, Msg := b }] } },
    ?_, rfl, o.is_perm t.Clients, rfl, rfl, rfl, rfl, rfl, rfl, rfl, rfl, rfl⟩
  simp only [TcpTransmit.TargetMsgProc_body, hcr, foldl_emit, Chan.send, hroom, if_true]

/-- Witness of C4: the target sends the byte `1` to a relay with two clients, the write to
the second of which fails. -/
theorem TargetMsgProc_relays_witness :
    sampleRelay.ConnRemote = some sampleTarget ∧
    sampleRelay.TargetBuf.buf.length < sampleRelay.TargetBuf.cap ∧
    ∃ t1, sampleRelay.TargetMsgProc_body Order.asListed (fun k => decide (k = clientA))
          (.ok [49]) = .next t1
      ∧ t1.trace = sampleRelay.trace
          ++ (sampleRelay.Items Order.asListed).map
              (fun k => Event.connWrite k [49] (decide (k = clientA)))
      ∧ (sampleRelay.Items Order.asListed).Perm sampleRelay.Clients
      ∧ t1.TargetBuf.buf
          = sampleRelay.TargetBuf.buf ++ [{ IpAddr := sampleTarget.remoteAddr, Msg := [49] }]
      ∧ t1.TargetBuf.cap = sampleRelay.TargetBuf.cap
      ∧ t1.Clients = sampleRelay.Clients ∧ t1.ClientsBuf = sampleRelay.ClientsBuf
      ∧ t1.IsClose = sampleRelay.IsClose
      ∧ t1.closeChan = sampleRelay.closeChan ∧ t1.ConnRemote = sampleRelay.ConnRemote
      ∧ t1.Listener = sampleRelay.Listener ∧ t1.wg = sampleRelay.wg :=
  ⟨rfl, by decide, TargetMsgProc_relays Order.asListed (fun k => decide (k = clientA))
    sampleRelay sampleTarget [49] rfl (by decide)⟩

/-- C5: when the read of the client `cli` fails, the pass of its loop leaves the loop and
its deferred function removes `cli`, and nothing else, from the registry and closes the
connection of `cli`, and nothing else (the two outside calls are the log line and that
close); shutdown is not triggered: the closed-flag, the close-signal, the target
connection, the listener and both message buffers are as before. `GetClientsList` then
lists the remote addresses of exactly the other members of the registry. The wait-group
counter is positive because the loop incremented it on entry. -/
theorem ClientMsgProc_read_error (wr : Conn → Bool) (t : TcpTransmit) (cli : Conn)
    (err : String) (hwg : 0 < t.wg) :
    ∃ t1, t.ClientMsgProc_body wr cli (.error err) = .returned t1
      ∧ cli ∉ t1.Clients
      ∧ (∀ k, k ≠ cli → (k ∈ t1.Clients ↔ k ∈ t.Clients))
      ∧ t1.Clients = t.Clients.filter (fun k => k ≠ cli)
      ∧ t1.trace = t.trace ++ [.log "TargetMsg read err", .connClose cli]
      ∧ t1.IsClose = t.IsClose ∧ t1.closeChan = t.closeChan
      ∧ t1.ConnRemote = t.ConnRemote ∧ t1.Listener = t.Listener
      ∧ t1.TargetBuf = t.TargetBuf ∧ t1.ClientsBuf = t.ClientsBuf ∧ t1.wg + 1 = t.wg
      ∧ (∀ o : Order, ∃ l : List String,
          l.Perm ((t.Clients.filter (fun k => k ≠ cli)).map Conn.remoteAddr)
          ∧ t1.GetClientsList o
              = Text.doc [("clientsList", if l = [] then .null else .strArray l)]
          ∧ (∀ k ∈ t.Clients, k ≠ cli → k.remoteAddr ∈ l)
          ∧ ((∀ k ∈ t.Clients, k ≠ cli → k.remoteAddr ≠ cli.remoteAddr) →
              cli.remoteAddr ∉ l)) := by
  have hne : t.wg ≠ 0 := by omega
  refine ⟨{ t with
      wg := t.wg - 1
      Clients := t.Clients.filter (fun k => k ≠ cli)
      trace := t.trace ++ [.log "TargetMsg read err", .connClose cli] },
    ?_, ?_, ?_, rfl, rfl, rfl, rfl, rfl, rfl, rfl, rfl, ?_, ?_⟩
  · simp [TcpTransmit.ClientMsgProc_body, TcpTransmit.wgDone, TcpTransmit.emit, hne,
      cmapRemove, List.append_assoc]
  · simp
  · intro k hk
    simp [hk]
  · show t.wg - 1 + 1 = t.wg
    omega
  · intro o
    refine ⟨(o.perm (t.Clients.filter (fun k => k ≠ cli))).map Conn.remoteAddr,
      (o.is_perm _).map _, ?_, ?_, ?_⟩
    · rw [GetClientsList_eq]
      rfl
    · intro k hk hkc
      refine List.mem_map.2 ⟨k, (o.is_perm _).mem_iff.2 ?_, rfl⟩
      simp [hk, hkc]
    · intro hdistinct hmem
      obtain ⟨k, hk, hkaddr⟩ := List.mem_map.1 hmem
      have hk2 := (o.is_perm _).mem_iff.1 hk
      simp only [List.mem_filter, decide_eq_true_eq] at hk2
      exact hdistinct k hk2.1 hk2.2 hkaddr

/-- Witness of C5: the read of the first of two clients fails. -/
theorem ClientMsgProc_read_error_witness :
    0 < sampleRelay.wg ∧
    ∃ t1, sampleRelay.ClientMsgProc_body (fun _ => true) clientA (.error "EOF") = .returned t1
      ∧ clientA ∉ t1.Clients
      ∧ (∀ k, k ≠ clientA → (k ∈ t1.Clients ↔ k ∈ sampleRelay.Clients))
      ∧ t1.Clients = sampleRelay.Clients.filter (fun k => k ≠ clientA)
      ∧ t1.trace = sampleRelay.trace ++ [.log "TargetMsg read err", .connClose clientA]
      ∧ t1.IsClose = sampleRelay.IsClose ∧ t1.closeChan = sampleRelay.closeChan
      ∧ t1.ConnRemote = sampleRelay.ConnRemote ∧ t1.Listener = sampleRelay.Listener
      ∧ t1.TargetBuf = sampleRelay.TargetBuf ∧ t1.ClientsBuf = sampleRelay.ClientsBuf
      ∧ t1.wg + 1 = sampleRelay.wg
      ∧ (∀ o : Order, ∃ l : List String,
          l.Perm ((sampleRelay.Clients.filter (fun k => k ≠ clientA)).map Conn.remoteAddr)
          ∧ t1.GetClientsList o
              = Text.doc [("clientsList", if l = [] then .null else .strArray l)]
          ∧ (∀ k ∈ sampleRelay.Clients, k ≠ clientA → k.remoteAddr ∈ l)
          ∧ ((∀ k ∈ sampleRelay.Clients, k ≠ clientA → k.remoteAddr ≠ clientA.remoteAddr) →
              clientA.remoteAddr ∉ l)) :=
  ⟨by decide, ClientMsgProc_read_error (fun _ => true) sampleRelay clientA "EOF" (by decide)⟩

/-! ## Message buffers -/

/-- C9: on a relay whose close-signal has fired and whose buffer (on either side) holds
`m` as oldest entry, the poll of that side has exactly two possible results, one for each
choice of the `select`: the serialisation of `m`, with `m` removed from the buffer and
nothing else changed, or the "channel closed" failure of that side, with the state
unchanged; the "empty" failure is not a possible result. -/
theorem poll_after_shutdown (s : Side) (t : TcpTransmit) (m : ConnMsgT) (rest : List ConnMsgT)
    (hclosed : t.closeChan = true) (hbuf : (s.chan t).buf = m :: rest) :
    (s.poll t true).1 = jsonMarshalConnMsgT m
      ∧ (s.chan (s.poll t true).2).buf = rest
      ∧ (s.poll t true).2
          = (match s with
              | .remote => { t with TargetBuf := { t.TargetBuf with buf := rest } }
              | .client => { t with ClientsBuf := { t.ClientsBuf with buf := rest } })
      ∧ s.poll t false = (.error s.closedError, t)
      ∧ (∀ pickData, s.poll t pickData = s.poll t true ∨ s.poll t pickData = s.poll t false)
      ∧ (∀ pickData, (s.poll t pickData).1 ≠ .error "empty") := by
  cases s with
  | remote =>
    simp only [Side.chan] at hbuf
    have h1 : t.ReadRemoteChanMsg true
        = (jsonMarshalConnMsgT m, { t with TargetBuf := { t.TargetBuf with buf := rest } }) := by
      simp [TcpTransmit.ReadRemoteChanMsg, hbuf, hclosed]
    have h2 : t.ReadRemoteChanMsg false = (.error "remote msg chan close", t) := by
      simp [TcpTransmit.ReadRemoteChanMsg, hbuf, hclosed]
    refine ⟨?_, ?_, ?_, ?_, ?_, ?_⟩
    · simp only [Side.poll, h1]
    · simp only [Side.poll, h1, Side.chan]
    · simp only [Side.poll, h1]
    · simp only [Side.poll, h2, Side.closedError]
    · intro p
      cases p
      · exact Or.inr rfl
      · exact Or.inl rfl
    · intro p
      cases p
      · simp only [Side.poll, h2]
        intro h
        exact absurd (Except.error.inj h) (by decide)
      · simp only [Side.poll, h1, jsonMarshalConnMsgT]
        intro h
        cases h
  | client =>
    simp only [Side.chan] at hbuf
    have h1 : t.ReadClientChanMsg true
        = (jsonMarshalConnMsgT m, { t with ClientsBuf := { t.ClientsBuf with buf := rest } }) := by
      simp [TcpTransmit.ReadClientChanMsg, hbuf, hclosed]
    have h2 : t.ReadClientChanMsg false = (.error "clients msg chan close", t) := by
      simp [TcpTransmit.ReadClientChanMsg, hbuf, hclosed]
    refine ⟨?_, ?_, ?_, ?_, ?_, ?_⟩
    · simp only [Side.poll, h1]
    · simp only [Side.poll, h1, Side.chan]
    · simp only [Side.poll, h1]
    · simp only [Side.poll, h2, Side.closedError]
    · intro p
      cases p
      · exact Or.inr rfl
      · exact Or.inl rfl
    · intro p
      cases p
      · simp only [Side.poll, h2]
        intro h
        exact absurd (Except.error.inj h) (by decide)
      · simp only [Side.poll, h1, jsonMarshalConnMsgT]
        intro h
        cases h

/-- Witness of C9: a closed relay that still holds two entries on each side. -/
theorem poll_after_shutdown_witness :
    samplePending.closeChan = true ∧ (Side.client.chan samplePending).buf = msgTwo :: [msgOne] ∧
    ((Side.client.poll samplePending true).1 = jsonMarshalConnMsgT msgTwo
      ∧ (Side.client.chan (Side.client.poll samplePending true).2).buf = [msgOne]
      ∧ (Side.client.poll samplePending true).2
          = (match Side.client with
              | .remote => { samplePending with
                  TargetBuf := { samplePending.TargetBuf with buf := [msgOne] } }
              | .client => { samplePending with
                  ClientsBuf := { samplePending.ClientsBuf with buf := [msgOne] } })
      ∧ Side.client.poll samplePending false = (.error Side.client.closedError, samplePending)
      ∧ (∀ pickData, Side.client.poll samplePending pickData = Side.client.poll samplePending true
          ∨ Side.client.poll samplePending pickData = Side.client.poll samplePending false)
      ∧ (∀ pickData, (Side.client.poll samplePending pickData).1 ≠ .error "empty")) :=
  ⟨rfl, rfl, poll_after_shutdown Side.client samplePending msgTwo [msgOne] rfl rfl⟩

/-- C3: each message buffer is first-in first-out. On a relay whose close-signal has not
fired, run any sequence of sends and polls on one side: every poll returns, either the
serialisation of an entry or the "empty" failure, and the serialisations returned,
followed by those of the entries still queued, are those of the entries queued at the
start followed by the entries sent, in the order they were sent; the sequence runs to
its end whenever the buffer has room for its sends. In particular, sending any entries
`es` that fit into an empty buffer and then polling as many times returns the
serialisations of `es` in exactly that order and leaves the buffer empty. -/
theorem buffers_fifo (s : Side) (t : TcpTransmit) (hopen : t.closeChan = false) :
    (∀ ops rs t2, session s ops t = some (rs, t2) →
        rs.filter isData ++ (s.chan t2).buf.map jsonMarshalConnMsgT
            = ((s.chan t).buf ++ enqueued ops).map jsonMarshalConnMsgT
          ∧ (∀ r ∈ rs, isData r = false → r = .error "empty"))
      ∧ (∀ ops, (s.chan t).buf.length + (enqueued ops).length ≤ (s.chan t).cap →
          ∃ r, session s ops t = some r)
      ∧ (∀ (es : List ConnMsgT) (picks : List Bool), (s.chan t).buf = [] →
          es.length ≤ (s.chan t).cap → picks.length = es.length →
          session s (es.map BufOp.enqueue ++ picks.map BufOp.poll) t
            = some (es.map jsonMarshalConnMsgT, t)) := by
  refine ⟨fun ops rs t2 h => session_order s ops t t2 rs hopen h,
    fun ops h => session_total s ops t h, ?_⟩
  intro es picks hempty hfit hlen
  have h1 := session_enqueues s es t (by rw [hempty]; simpa using hfit)
  have h2 := session_polls s picks (s.withBuf t ((s.chan t).buf ++ es)) (by simp [hopen])
    (by simp [hempty, hlen])
  have h3 := session_append s _ _ _ _ _ _ _ h1 h2
  have hself := withBuf_self s t
  rw [hempty] at hself
  simpa [hempty, hself] using h3

/-- Witness of C3: `(A, "1")` then `(A, "2")` sent on the empty target-origin buffer; the
first poll returns the entry with msg "1", the second the entry with msg "2". -/
theorem buffers_fifo_witness :
    sampleRelay.closeChan = false ∧
    session Side.remote
        [.enqueue msgOne, .enqueue msgTwo, .poll true, .poll false] sampleRelay
      = some ([.ok [("ipAddr", .str "10.0.0.1:9000"), ("msg", .text [49])],
               .ok [("ipAddr", .str "10.0.0.1:9000"), ("msg", .text [50])]], sampleRelay) :=
  ⟨rfl, (buffers_fifo Side.remote sampleRelay rfl).2.2 [msgOne, msgTwo] [true, false] rfl
    (by decide) rfl⟩

/-- C7: each message buffer has the fixed capacity of 2048 entries it was created with. In
every state that a sequence of relay steps reaches from `NewTcpTransmit`, either buffer
has capacity 2048 and holds at most 2048 entries. When it holds 2048 entries, a send on it
does not complete, and the loop pass that feeds it is parked on its send, holding its
entry (with the bytes read), the buffer untouched, without an error; through any further
steps none of which is a poll of that side the buffer keeps the same entries and the send
stays parked; and a poll that returns an entry removes the oldest one, after which the
send completes and puts its entry at the tail. -/
theorem buffers_bounded (acts : List Action) (t : TcpTransmit) (s : Side)
    (h : run acts NewTcpTransmit = some t) :
    (s.chan NewTcpTransmit).cap = 2048
      ∧ (s.chan t).cap = 2048 ∧ (s.chan t).buf.length ≤ 2048
      ∧ ((s.chan t).buf.length = 2048 →
          (∀ m, s.enqueue t m = none)
          ∧ (∀ o wr cli b remote, t.ConnRemote = some remote →
              ∃ tw m, s.pass o wr cli t b = .blocked tw m ∧ s.chan tw = s.chan t ∧ m.Msg = b)
          ∧ (∀ more t1, run more t = some t1 → (∀ a ∈ more, s.isPoll a = false) →
              s.chan t1 = s.chan t ∧ ∀ m, s.enqueue t1 m = none)
          ∧ (∀ pickData r t1, s.poll t pickData = (.ok r, t1) →
              (s.chan t1).buf = (s.chan t).buf.tail
              ∧ ∀ m, s.enqueue t1 m = some (s.withBuf t1 ((s.chan t).buf.tail ++ [m])))) := by
  have hb := run_bounded acts NewTcpTransmit t
    (fun s => by cases s <;> exact ⟨rfl, by decide⟩) h s
  refine ⟨by cases s <;> rfl, hb.1, hb.2, ?_⟩
  intro hlen
  have hfull : (s.chan t).cap ≤ (s.chan t).buf.length := by omega
  refine ⟨fun m => enqueue_full s t m hfull,
    fun o wr cli b remote hcr => pass_full s o wr cli remote t b hcr hfull, ?_, ?_⟩
  · intro more t1 hrun hnp
    have hsame := run_full s more t t1 hfull hrun hnp
    exact ⟨hsame, fun m => enqueue_full s t1 m (by rw [hsame]; exact hfull)⟩
  · intro p r t1 hpoll
    cases hbuf : (s.chan t).buf with
    | nil => rw [hbuf] at hlen; cases hlen
    | cons m0 rest =>
      rw [hbuf] at hlen
      simp only [List.length_cons] at hlen
      rcases poll_cons_cases s t p m0 rest hbuf with hd | hc
      · rw [hd] at hpoll
        simp only [Prod.mk.injEq] at hpoll
        obtain ⟨_, rfl⟩ := hpoll
        refine ⟨by simp, ?_⟩
        intro m
        rw [enqueue_eq]
        have hlt : (s.chan (s.withBuf t rest)).buf.length < (s.chan (s.withBuf t rest)).cap := by
          simp only [chan_withBuf]
          omega
        have hlt2 : rest.length < (s.chan t).cap := by omega
        simp [hlt2]
      · rw [hc] at hpoll
        simp only [Prod.mk.injEq] at hpoll
        exact absurd hpoll.1 (by intro hx; cases hx)

/-- Witness of C7: after 2048 sends and no poll the target-origin buffer is full, and the
properties of a full buffer follow. -/
theorem buffers_bounded_witness :
    run fullRun NewTcpTransmit = some fullRelay
      ∧ (Side.remote.chan fullRelay).buf.length = 2048
      ∧ (∀ m, Side.remote.enqueue fullRelay m = none)
      ∧ (∀ more t1, run more fullRelay = some t1 →
          (∀ a ∈ more, Side.remote.isPoll a = false) →
          Side.remote.chan t1 = Side.remote.chan fullRelay
            ∧ ∀ m, Side.remote.enqueue t1 m = none) :=
  have hlen : (Side.remote.chan fullRelay).buf.length = 2048 := List.length_replicate 2048 msgOne
  have hall := (buffers_bounded fullRun fullRelay Side.remote run_fullRun).2.2.2 hlen
  ⟨run_fullRun, hlen, hall.1, hall.2.2.1⟩

/-! ## Client list and stopped query -/

/-- C8, the code on the empty registry: `GetClientsList` on a relay with no client, such as
a new relay, returns the object whose field `clientsList` is `null`, not an array; on a
relay with clients the field is the array of their remote addresses, one for each member
of the registry, in the order of the traversal. -/
theorem GetClientsList_empty_registry (o : Order) :
    NewTcpTransmit.GetClientsList o = Text.doc [("clientsList", JsonValue.null)]
      ∧ (∀ xs, NewTcpTransmit.GetClientsList o
          ≠ Text.doc [("clientsList", JsonValue.strArray xs)])
      ∧ (∀ t : TcpTransmit, t.Clients = [] →
          t.GetClientsList o = Text.doc [("clientsList", JsonValue.null)])
      ∧ (∀ t : TcpTransmit, t.Clients ≠ [] →
          ∃ l : List String, l.Perm (t.Clients.map Conn.remoteAddr) ∧ l ≠ []
            ∧ t.GetClientsList o = Text.doc [("clientsList", JsonValue.strArray l)]) := by
  have hnil : ∀ t : TcpTransmit, t.Clients = [] →
      t.GetClientsList o = Text.doc [("clientsList", JsonValue.null)] := by
    intro t ht
    have hI : t.Items o = [] := by
      have hp : (t.Items o).Perm t.Clients := o.is_perm t.Clients
      rw [ht] at hp
      exact List.Perm.eq_nil hp
    rw [GetClientsList_eq, hI]
    rfl
  refine ⟨hnil _ rfl, ?_, hnil, ?_⟩
  · intro xs hxs
    rw [hnil _ rfl] at hxs
    cases hxs
  · intro t ht
    have hne : (t.Items o).map Conn.remoteAddr ≠ [] := by
      intro hmap
      have hI : t.Items o = [] := List.map_eq_nil_iff.1 hmap
      have := o.is_perm t.Clients
      rw [show o.perm t.Clients = t.Items o from rfl, hI] at this
      exact ht (List.Perm.nil_eq this).symm
    refine ⟨(t.Items o).map Conn.remoteAddr, (o.is_perm t.Clients).map _, hne, ?_⟩
    rw [GetClientsList_eq]
    simp only [hne, if_false]

/-- C10, the code after a failed start: `AppStart` stores the new relay before `Start`
runs and returns on a failed dial or a failed listen without clearing it, so that
`CheckAppStop` then returns false although no relay loop was ever started. The query
returns true on a new shell, after `AppStop`, and once `Close` has run on the current
relay. -/
theorem CheckAppStop_after_failed_start :
    (NewApp.AppStart (.error "connection refused") (.ok { ptr := 7 })).1 = "connection refused"
      ∧ (NewApp.AppStart (.error "connection refused") (.ok { ptr := 7 })).2.CheckAppStop = false
      ∧ (∀ (a : App) (err : String) (listen : Except String Listener),
          (a.AppStart (.error err) listen).2.CheckAppStop = false
            ∧ (a.AppStart (.error err) listen).2.t = some NewTcpTransmit)
      ∧ (∀ (a : App) (err : String) (conn : Conn),
          (a.AppStart (.ok conn) (.error err)).2.CheckAppStop = false)
      ∧ NewApp.CheckAppStop = true
      ∧ (∀ (a a2 : App) (o : Order), a.AppStop o = .ok a2 → a2.CheckAppStop = true)
      ∧ (∀ (t t2 : TcpTransmit) (o : Order), t.Close o = .ok t2 →
          App.CheckAppStop { t := some t2 } = true) := by
  refine ⟨rfl, rfl, fun _ _ _ => ⟨rfl, rfl⟩, fun _ _ _ => rfl, rfl, ?_, ?_⟩
  · intro a a2 o h
    unfold App.AppStop at h
    split at h
    · split at h
      · cases h
        rfl
      · cases h
    · cases h
      simp only [App.CheckAppStop, *]
  · intro t t2 o h
    show t2.IsClose = true
    obtain ⟨cr, ls, cl, cb, tb, wg, cc, ic, tr⟩ := t
    cases ic
    · cases cc
      · rw [Close_of_open _ _ rfl rfl] at h
        cases h
        rfl
      · cases cr <;> cases ls <;>
          simp only [TcpTransmit.Close, TcpTransmit.Items, foldl_emit] at h <;>
          simp [TcpTransmit.closeSignal, TcpTransmit.emit] at h
    · rw [Close_of_closed _ _ rfl] at h
      cases h
      rfl

end TcpRelay
